import Mathlib

/-!
Shallow embedding of the vote-integrity core of the pollr backend
(elections/models.py, elections/views.py, voting/models.py,
voting/serializers.py, voting/views.py, organizations/models.py).

Entities are translated as plain structures, the relational store as lists
of rows, and the Django ORM queries as list traversals.  Wall-clock time is
an abstract totally ordered instant, modelled as `Nat`.  Fallible request
handlers return `Except VoteError`.
-/

namespace Pollr

/-- `ElectionStatus` text choices of elections/models.py. -/
inductive ElectionStatus where
  | scheduled
  | ongoing
  | completed
deriving DecidableEq, Repr

/-- `MembershipStatus` choices of organizations/models.py. -/
inductive MembershipStatus where
  | pending
  | approved
  | rejected
deriving DecidableEq, Repr

/-- Error kinds raised by the handlers (serializer `ValidationError`s,
`DoesNotExist` lookups, and the 400 responses of the election views). -/
inductive VoteError where
  | electionNotFound
  | positionNotFound
  | candidateNotFound
  | duplicateVote
  | votingClosed
  | notEligible
  | missingVoter
  | positionMismatch
  | candidateMismatch
  | duplicatePositionInRequest
  | missingIds
  | emptyBallot
  | invalidTransition
  | storageMiss
deriving DecidableEq, Repr

/-- Row of the `organizations` table (the fields the voting core reads). -/
structure Organization where
  id : Nat
  owner : Nat
deriving DecidableEq, Repr

/-- Row of the `organization_members` table. -/
structure OrganizationMember where
  id : Nat
  user : Nat
  organization : Nat
  membership_status : MembershipStatus
deriving DecidableEq, Repr

/-- Row of the `elections` table. -/
structure Election where
  id : Nat
  organization : Nat
  start_at : Nat
  end_at : Nat
  status : ElectionStatus
deriving DecidableEq, Repr

/-- Row of the `positions` table. -/
structure Position where
  id : Nat
  election : Nat
deriving DecidableEq, Repr

/-- Row of the `candidates` table. -/
structure Candidate where
  id : Nat
  position : Nat
  name : String
deriving DecidableEq, Repr

/-- Row of the `votes` table: `voter` is the nullable FK to
`OrganizationMember`, `voter_user` the nullable FK to the user model. -/
structure Vote where
  election : Nat
  position : Nat
  candidate : Nat
  voter : Option Nat
  voter_user : Option Nat
deriving DecidableEq, Repr

/-- The static part of the relational store.  The `votes` table is the only
table mutated by the ballot operations, so it is passed separately. -/
structure Env where
  organizations : List Organization
  elections : List Election
  positions : List Position
  candidates : List Candidate
  members : List OrganizationMember
deriving Repr

/-- `Election.update_status`: re-derives the status from the clock.
Completed is sticky; otherwise the branches follow the source order. -/
def deriveStatus (now start_at end_at : Nat) (status : ElectionStatus) : ElectionStatus :=
  if status = .completed then status
  else if now < start_at then .scheduled
  else if start_at ≤ now ∧ now < end_at then .ongoing
  else if end_at ≤ now then .completed
  else status

/-- `Election.update_status` applied to a row. -/
def Election.update_status (e : Election) (now : Nat) : Election :=
  { e with status := deriveStatus now e.start_at e.end_at e.status }

/-- `Election.is_active`: re-derive, then compare with ongoing. -/
def Election.is_active (e : Election) (now : Nat) : Bool :=
  (e.update_status now).status = .ongoing

/-- `Election.can_vote`. -/
def Election.can_vote (e : Election) (now : Nat) : Bool :=
  e.is_active now

/-- `Election.start`: only a scheduled election moves to ongoing; any other
status is left untouched by the model method. -/
def Election.startElection (e : Election) : Election :=
  if e.status = .scheduled then { e with status := .ongoing } else e

/-- `Election.end`: a scheduled or ongoing election moves to completed. -/
def Election.endElection (e : Election) : Election :=
  if e.status = .scheduled ∨ e.status = .ongoing then { e with status := .completed } else e

/-- `ElectionViewSet.start`: 400 unless the election is scheduled, else the
model transition runs and the row is saved. -/
def startAction (e : Election) : Except VoteError Election :=
  if e.status ≠ .scheduled then .error .invalidTransition
  else .ok e.startElection

/-- `ElectionViewSet.end`: 400 when the election is already completed. -/
def endAction (e : Election) : Except VoteError Election :=
  if e.status = .completed then .error .invalidTransition
  else .ok e.endElection

/-- Persisted election after the start endpoint: unchanged on error. -/
def startActionState (e : Election) : Election :=
  match startAction e with
  | .ok e2 => e2
  | .error _ => e

/-- Persisted election after the end endpoint: unchanged on error. -/
def endActionState (e : Election) : Election :=
  match endAction e with
  | .ok e2 => e2
  | .error _ => e

/-- `Organization.is_member`: an approved membership row exists. -/
def Organization.is_member (org : Organization) (env : Env) (user : Nat) : Bool :=
  env.members.any fun m =>
    decide (m.organization = org.id ∧ m.user = user ∧ m.membership_status = .approved)

/-- The `voter__user=user` join of `has_user_voted_for_position`: the vote's
membership FK resolves to a row whose user is `user`. -/
def voteMatchesMember (env : Env) (user : Nat) (v : Vote) : Bool :=
  match v.voter with
  | none => false
  | some mid =>
    match env.members.find? (fun m => decide (m.id = mid)) with
    | none => false
    | some m => decide (m.user = user)

/-- `Vote.has_user_voted_for_position`: checks the membership column and the
direct `voter_user` column, in the source's two separate queries. -/
def has_user_voted_for_position (env : Env) (election position user : Nat)
    (votes : List Vote) : Bool :=
  (votes.any fun v =>
      decide (v.election = election) && decide (v.position = position)
        && voteMatchesMember env user v)
  || (votes.any fun v =>
      decide (v.election = election) && decide (v.position = position)
        && decide (v.voter_user = some user))

/-- `Vote.clean`: at least one voter column, position belongs to the
election, candidate belongs to the position, election currently votable. -/
def Vote.clean (env : Env) (now : Nat) (v : Vote) : Except VoteError Unit :=
  if v.voter = none ∧ v.voter_user = none then .error .missingVoter
  else
    match env.positions.find? (fun p => decide (p.id = v.position)) with
    | none => .error .storageMiss
    | some p =>
      if ¬ p.election = v.election then .error .positionMismatch
      else
        match env.candidates.find? (fun c => decide (c.id = v.candidate)) with
        | none => .error .storageMiss
        | some c =>
          if ¬ c.position = v.position then .error .candidateMismatch
          else
            match env.elections.find? (fun e => decide (e.id = v.election)) with
            | none => .error .storageMiss
            | some e =>
              if ! e.can_vote now then .error .votingClosed
              else .ok ()

/-- `Vote.objects.create` → `Vote.save` with validation: clean, then append
the row (rows are ordered by `created_at`). -/
def createVote (env : Env) (now : Nat) (v : Vote) (votes : List Vote) :
    Except VoteError (List Vote) :=
  match Vote.clean env now v with
  | .error err => .error err
  | .ok _ => .ok (votes ++ [v])

/-- The voter-column assignment done by `VoteViewSet.cast`/`bulk_cast`: the
organization owner votes through `voter_user`, anyone else through the
approved membership row fetched by `OrganizationMember.objects.get`. -/
def voterColumns (env : Env) (org : Organization) (user : Nat) :
    Except VoteError (Option Nat × Option Nat) :=
  if org.owner = user then .ok (none, some user)
  else
    match env.members.find? (fun m =>
        decide (m.user = user ∧ m.organization = org.id ∧ m.membership_status = .approved)) with
    | some m => .ok (some m.id, none)
    | none => .error .storageMiss

/-- `CastVoteSerializer.validate`, in source order: position lookup,
candidate lookup, duplicate check, activity check, eligibility check. -/
def castVoteValidate (env : Env) (now user : Nat) (e : Election)
    (position_id candidate_id : Nat) (votes : List Vote) :
    Except VoteError (Position × Candidate) :=
  match env.positions.find? (fun p => decide (p.id = position_id ∧ p.election = e.id)) with
  | none => .error .positionNotFound
  | some p =>
    match env.candidates.find? (fun c => decide (c.id = candidate_id ∧ c.position = p.id)) with
    | none => .error .candidateNotFound
    | some c =>
      if has_user_voted_for_position env e.id p.id user votes then .error .duplicateVote
      else if ! e.can_vote now then .error .votingClosed
      else
        match env.organizations.find? (fun o => decide (o.id = e.organization)) with
        | none => .error .storageMiss
        | some org =>
          if ! org.is_member env user && ! decide (org.owner = user) then .error .notEligible
          else .ok (p, c)

/-- `VoteViewSet.cast`: election lookup, serializer validation, voter-column
resolution, then `Vote.objects.create`. -/
def castVote (env : Env) (now user election_id position_id candidate_id : Nat)
    (votes : List Vote) : Except VoteError (Vote × List Vote) :=
  match env.elections.find? (fun e => decide (e.id = election_id)) with
  | none => .error .electionNotFound
  | some e =>
    match castVoteValidate env now user e position_id candidate_id votes with
    | .error err => .error err
    | .ok (p, c) =>
      match env.organizations.find? (fun o => decide (o.id = e.organization)) with
      | none => .error .storageMiss
      | some org =>
        match voterColumns env org user with
        | .error err => .error err
        | .ok (vr, vu) =>
          let v : Vote :=
            { election := e.id, position := p.id, candidate := c.id,
              voter := vr, voter_user := vu }
          match createVote env now v votes with
          | .error err => .error err
          | .ok votes2 => .ok (v, votes2)

/-- The votes table after a `cast` request: unchanged when it errors. -/
def castVoteState (env : Env) (now user election_id position_id candidate_id : Nat)
    (votes : List Vote) : List Vote :=
  match castVote env now user election_id position_id candidate_id votes with
  | .ok (_, votes2) => votes2
  | .error _ => votes

/-- Per-item loop of `BulkVoteSerializer.validate`: falsy ids rejected,
duplicate positions in the request rejected via the seen set, then position
lookup, candidate lookup and duplicate-vote check against the table as it
stood when validation started. -/
def bulkValidateItems (env : Env) (user : Nat) (e : Election) (votes : List Vote) :
    List (Nat × Nat) → List Nat → Except VoteError (List (Position × Candidate))
  | [], _ => .ok []
  | (position_id, candidate_id) :: rest, seen =>
    if position_id = 0 ∨ candidate_id = 0 then .error .missingIds
    else if position_id ∈ seen then .error .duplicatePositionInRequest
    else
      match env.positions.find? (fun p => decide (p.id = position_id ∧ p.election = e.id)) with
      | none => .error .positionNotFound
      | some p =>
        match env.candidates.find? (fun c =>
            decide (c.id = candidate_id ∧ c.position = p.id)) with
        | none => .error .candidateNotFound
        | some c =>
          if has_user_voted_for_position env e.id p.id user votes then .error .duplicateVote
          else
            match bulkValidateItems env user e votes rest (position_id :: seen) with
            | .error err => .error err
            | .ok others => .ok ((p, c) :: others)

/-- `BulkVoteSerializer.validate`: activity check, eligibility check, then
the per-item loop. -/
def bulkVoteValidate (env : Env) (now user : Nat) (e : Election) (votes : List Vote)
    (items : List (Nat × Nat)) : Except VoteError (List (Position × Candidate)) :=
  if ! e.can_vote now then .error .votingClosed
  else
    match env.organizations.find? (fun o => decide (o.id = e.organization)) with
    | none => .error .storageMiss
    | some org =>
      if ! org.is_member env user && ! decide (org.owner = user) then .error .notEligible
      else bulkValidateItems env user e votes items []

/-- The create loop of `VoteViewSet.bulk_cast` inside `transaction.atomic`:
each validated item is persisted in order; any failure aborts the whole
call (the caller then rolls back to the original table). -/
def bulkCreateVotes (env : Env) (now : Nat) (org : Organization) (user election_id : Nat) :
    List (Position × Candidate) → List Vote → Except VoteError (List Vote × List Vote)
  | [], votes => .ok ([], votes)
  | (p, c) :: rest, votes =>
    match voterColumns env org user with
    | .error err => .error err
    | .ok (vr, vu) =>
      let v : Vote :=
        { election := election_id, position := p.id, candidate := c.id,
          voter := vr, voter_user := vu }
      match createVote env now v votes with
      | .error err => .error err
      | .ok votes2 =>
        match bulkCreateVotes env now org user election_id rest votes2 with
        | .error err => .error err
        | .ok (created, votesF) => .ok (v :: created, votesF)

/-- `VoteViewSet.bulk_cast`: election lookup, field validation (the votes
list may not be empty), serializer validation, then the atomic create
loop.  On success returns the created votes and the new table. -/
def bulkCast (env : Env) (now user election_id : Nat) (items : List (Nat × Nat))
    (votes : List Vote) : Except VoteError (List Vote × List Vote) :=
  match env.elections.find? (fun e => decide (e.id = election_id)) with
  | none => .error .electionNotFound
  | some e =>
    if items = [] then .error .emptyBallot
    else
      match bulkVoteValidate env now user e votes items with
      | .error err => .error err
      | .ok pcs =>
        match env.organizations.find? (fun o => decide (o.id = e.organization)) with
        | none => .error .storageMiss
        | some org =>
          bulkCreateVotes env now org user e.id pcs votes

/-- The votes table after a `bulk_cast` request: `transaction.atomic` rolls
every insert back when the call errors. -/
def bulkCastState (env : Env) (now user election_id : Nat) (items : List (Nat × Nat))
    (votes : List Vote) : List Vote :=
  match bulkCast env now user election_id items votes with
  | .ok (_, votes2) => votes2
  | .error _ => votes

/-- One entry of a position result (`candidate__id`, `candidate__name`,
`vote_count`, `percentage`).  The float division of the source is modelled
exactly over the rationals. -/
structure CandidateResult where
  candidate_id : Nat
  candidate_name : String
  vote_count : Nat
  percentage : Rat
deriving DecidableEq, Repr

/-- The dictionary returned by `Vote.get_results_for_position`. -/
structure PositionResult where
  position : Position
  total_votes : Nat
  candidates : List CandidateResult
deriving DecidableEq, Repr

/-- The `candidate__name` join column. -/
def candidateNameOf (env : Env) (candidate_id : Nat) : String :=
  match env.candidates.find? (fun c => decide (c.id = candidate_id)) with
  | some c => c.name
  | none => ""

/-- `.values('candidate__id', ...).annotate(vote_count=Count('id'))`: one
pair per distinct candidate id occurring among the given votes. -/
def positionVoteGroups (filtered : List Vote) : List (Nat × Nat) :=
  ((filtered.map fun v => v.candidate).dedup).map
    fun cid => (cid, filtered.countP fun v => decide (v.candidate = cid))

/-- `Vote.get_results_for_position`: count the votes of the position, group
by candidate ordered by descending vote count, then append the candidates
of the position that received no vote with count 0 and percentage 0. -/
def get_results_for_position (env : Env) (p : Position) (votes : List Vote) :
    PositionResult :=
  let filtered := votes.filter fun v => decide (v.position = p.id)
  let total_votes := filtered.length
  let sorted := (positionVoteGroups filtered).mergeSort fun a b => decide (b.2 ≤ a.2)
  let tallied := sorted.map fun g =>
    { candidate_id := g.1
      candidate_name := candidateNameOf env g.1
      vote_count := g.2
      percentage :=
        if total_votes > 0 then (g.2 : Rat) / (total_votes : Rat) * 100 else 0
      : CandidateResult }
  let voted_ids := tallied.map fun r => r.candidate_id
  let zeroes := (env.candidates.filter fun c =>
      decide (c.position = p.id) && ! voted_ids.contains c.id).map
    fun c =>
      { candidate_id := c.id, candidate_name := c.name
        vote_count := 0, percentage := 0 : CandidateResult }
  { position := p, total_votes := total_votes, candidates := tallied ++ zeroes }

/-- A vote resolving to `user` through either voter column. -/
def voteCastBy (env : Env) (user : Nat) (v : Vote) : Bool :=
  voteMatchesMember env user v || decide (v.voter_user = some user)

/-- Number of stored votes for (election, position) resolving to `user`. -/
def countVotesBy (env : Env) (election position user : Nat) (votes : List Vote) : Nat :=
  votes.countP fun v =>
    decide (v.election = election) && decide (v.position = position) && voteCastBy env user v

/-- One ballot-surface request. -/
inductive BallotOp where
  | single (now user election_id position_id candidate_id : Nat)
  | bulk (now user election_id : Nat) (items : List (Nat × Nat))

/-- Effect of one request on the votes table. -/
def applyBallotOp (env : Env) (votes : List Vote) : BallotOp → List Vote
  | .single now user eid pid cid => castVoteState env now user eid pid cid votes
  | .bulk now user eid items => bulkCastState env now user eid items votes

/-- Effect of a request sequence on the votes table. -/
def runBallotOps (env : Env) (votes : List Vote) (ops : List BallotOp) : List Vote :=
  ops.foldl (applyBallotOp env) votes

/-! ## Generic helpers -/

instance {ε α : Type} [DecidableEq ε] [DecidableEq α] : DecidableEq (Except ε α) := fun a b =>
  match a, b with
  | .ok x, .ok y =>
    if h : x = y then .isTrue (by rw [h]) else .isFalse (fun hh => h (Except.ok.inj hh))
  | .error x, .error y =>
    if h : x = y then .isTrue (by rw [h]) else .isFalse (fun hh => h (Except.error.inj hh))
  | .ok _, .error _ => .isFalse (fun hh => Except.noConfusion hh)
  | .error _, .ok _ => .isFalse (fun hh => Except.noConfusion hh)

/-- `find?` on a key that occurs once returns the row carrying it. -/
theorem find?_key_eq {α : Type} (key : α → Nat) :
    ∀ (l : List α), (l.map key).Nodup → ∀ a ∈ l,
      l.find? (fun x => decide (key x = key a)) = some a := by
  intro l
  induction l with
  | nil => intro _ a ha; cases ha
  | cons b l ih =>
    intro hnd a ha
    rw [List.map_cons, List.nodup_cons] at hnd
    rcases List.mem_cons.mp ha with rfl | hmem
    · simp [List.find?_cons]
    · have hne : key b ≠ key a := by
        intro hk
        exact hnd.1 (hk ▸ List.mem_map_of_mem key hmem)
      rw [List.find?_cons]
      simp only [hne, decide_False]
      exact ih hnd.2 a hmem

/-- At most one element of a list with pairwise distinct keys can satisfy a
predicate that pins the key down to a single value. -/
theorem countP_le_one_of_key {α : Type} (key : α → Nat) (q : α → Bool) (k : Nat) :
    ∀ (l : List α), (l.map key).Nodup → (∀ x ∈ l, q x = true → key x = k) →
      l.countP q ≤ 1 := by
  intro l
  induction l with
  | nil => intro _ _; simp
  | cons b l ih =>
    intro hnd hq
    rw [List.map_cons, List.nodup_cons] at hnd
    rw [List.countP_cons]
    by_cases hb : q b = true
    · have hzero : l.countP q = 0 := by
        rw [List.countP_eq_zero]
        intro x hx hqx
        have hkx : key x = k := hq x (List.mem_cons_of_mem b hx) hqx
        have hkb : key b = k := hq b (List.mem_cons_self b l) hb
        exact hnd.1 ((hkb.trans hkx.symm) ▸ List.mem_map_of_mem key hx)
      simp [hzero, hb]
    · have hble : l.countP q ≤ 1 :=
        ih hnd.2 (fun x hx hqx => hq x (List.mem_cons_of_mem b hx) hqx)
      have h0 : (if q b then 1 else 0) = 0 := by simp [hb]
      omega

/-! ## Characterisations of the duplicate check -/

/-- If the duplicate check reports no vote, no stored row resolves to the
user for that (election, position). -/
theorem count_zero_of_not_voted (env : Env) (e p u : Nat) (votes : List Vote)
    (h : has_user_voted_for_position env e p u votes = false) :
    countVotesBy env e p u votes = 0 := by
  rw [countVotesBy, List.countP_eq_zero]
  intro v hv
  rw [has_user_voted_for_position, Bool.or_eq_false_iff] at h
  obtain ⟨h1, h2⟩ := h
  rw [List.any_eq_false] at h1 h2
  have h1v := h1 v hv
  have h2v := h2 v hv
  intro hq
  simp only [Bool.and_eq_true] at hq
  obtain ⟨⟨ha, hb⟩, hcast⟩ := hq
  rw [voteCastBy, Bool.or_eq_true] at hcast
  rcases hcast with hm | ho
  · exact h1v (by rw [Bool.and_eq_true, Bool.and_eq_true]; exact ⟨⟨ha, hb⟩, hm⟩)
  · exact h2v (by rw [Bool.and_eq_true, Bool.and_eq_true]; exact ⟨⟨ha, hb⟩, ho⟩)

/-- A stored row resolving to the user makes the duplicate check fire. -/
theorem voted_of_mem (env : Env) (e p u : Nat) (votes : List Vote) (v : Vote)
    (hv : v ∈ votes) (he : v.election = e) (hp : v.position = p)
    (hc : voteCastBy env u v = true) :
    has_user_voted_for_position env e p u votes = true := by
  rw [has_user_voted_for_position, Bool.or_eq_true]
  rw [voteCastBy, Bool.or_eq_true] at hc
  rcases hc with hm | ho
  · exact Or.inl (List.any_eq_true.mpr ⟨v, hv, by simp [he, hp, hm]⟩)
  · exact Or.inr (List.any_eq_true.mpr ⟨v, hv, by simp [he, hp, ho]⟩)

/-! ## Voter-column resolution -/

/-- The columns produced by the cast paths resolve back to the caster, and
only to the caster, provided membership ids are unique. -/
theorem voterColumns_spec (env : Env) (org : Organization) (user : Nat)
    (vr vu : Option Nat) (h : voterColumns env org user = .ok (vr, vu))
    (hm : (env.members.map fun m => m.id).Nodup) :
    ∀ v : Vote, v.voter = vr → v.voter_user = vu →
      voteCastBy env user v = true ∧ ∀ u2, voteCastBy env u2 v = true → u2 = user := by
  intro v hvr hvu
  rw [voterColumns] at h
  by_cases how : org.owner = user
  · rw [if_pos how] at h
    obtain ⟨rfl, rfl⟩ : none = vr ∧ some user = vu := by
      injection h with h2; injection h2 with ha hb; exact ⟨ha, hb⟩
    constructor
    · simp [voteCastBy, hvu]
    · intro u2 hu2
      simp only [voteCastBy, voteMatchesMember, hvr, hvu, Bool.or_eq_true,
        decide_eq_true_eq, Option.some.injEq] at hu2
      tauto
  · rw [if_neg how] at h
    cases hfind : env.members.find? (fun m =>
        decide (m.user = user ∧ m.organization = org.id ∧ m.membership_status = .approved)) with
    | none => rw [hfind] at h; exact absurd h (by simp)
    | some m =>
      rw [hfind] at h
      obtain ⟨rfl, rfl⟩ : some m.id = vr ∧ none = vu := by
        injection h with h2; injection h2 with ha hb; exact ⟨ha, hb⟩
      have hmem : m ∈ env.members := List.mem_of_find?_eq_some hfind
      have hprops := List.find?_some hfind
      rw [decide_eq_true_eq] at hprops
      have hlook : env.members.find? (fun x => decide (x.id = m.id)) = some m :=
        find?_key_eq (fun x => x.id) env.members hm m hmem
      constructor
      · simp [voteCastBy, voteMatchesMember, hvr, hlook, hprops.1]
      · intro u2 hu2
        simp only [voteCastBy, voteMatchesMember, hvr, hvu, hlook, Bool.or_eq_true,
          decide_eq_true_eq] at hu2
        rcases hu2 with h1 | h1
        · exact h1 ▸ hprops.1
        · cases h1

/-! ## Characterisation of a successful single cast -/

/-- What must have held for `CastVoteSerializer.validate` to succeed. -/
theorem castVoteValidate_ok (env : Env) (now user : Nat) (e : Election)
    (pid cid : Nat) (votes : List Vote) (p : Position) (c : Candidate)
    (h : castVoteValidate env now user e pid cid votes = .ok (p, c)) :
    env.positions.find? (fun x => decide (x.id = pid ∧ x.election = e.id)) = some p ∧
    env.candidates.find? (fun x => decide (x.id = cid ∧ x.position = p.id)) = some c ∧
    has_user_voted_for_position env e.id p.id user votes = false ∧
    e.can_vote now = true := by
  unfold castVoteValidate at h
  split at h
  · exact absurd h (by simp)
  next p2 hp =>
    split at h
    · exact absurd h (by simp)
    next c2 hc =>
      split at h
      · exact absurd h (by simp)
      next hdup =>
        split at h
        · exact absurd h (by simp)
        next hcv =>
          split at h
          · exact absurd h (by simp)
          next org ho =>
            split at h
            · exact absurd h (by simp)
            next helig =>
              injection h with h2
              injection h2 with h3 h4
              subst h3; subst h4
              exact ⟨hp, hc, by simpa using hdup, by simpa using hcv⟩

/-- What a successful `cast` request did: every lookup it performed, the
row it appended, and the duplicate check it passed. -/
theorem castVote_ok (env : Env) (now user eid pid cid : Nat) (votes : List Vote)
    (v : Vote) (votes2 : List Vote)
    (h : castVote env now user eid pid cid votes = .ok (v, votes2)) :
    ∃ e p c org,
      env.elections.find? (fun x => decide (x.id = eid)) = some e ∧
      env.positions.find? (fun x => decide (x.id = pid ∧ x.election = e.id)) = some p ∧
      env.candidates.find? (fun x => decide (x.id = cid ∧ x.position = p.id)) = some c ∧
      env.organizations.find? (fun o => decide (o.id = e.organization)) = some org ∧
      voterColumns env org user = .ok (v.voter, v.voter_user) ∧
      v.election = e.id ∧ v.position = p.id ∧ v.candidate = c.id ∧
      votes2 = votes ++ [v] ∧
      has_user_voted_for_position env e.id p.id user votes = false := by
  unfold castVote at h
  split at h
  · exact absurd h (by simp)
  next e he =>
    split at h
    · exact absurd h (by simp)
    next p c hvalid =>
      obtain ⟨hp, hc, hdup, _⟩ := castVoteValidate_ok env now user e pid cid votes p c hvalid
      split at h
      · exact absurd h (by simp)
      next org ho =>
        split at h
        · exact absurd h (by simp)
        next vr vu hvc =>
          simp only [] at h
          split at h
          · exact absurd h (by simp)
          next votes3 hcr =>
            unfold createVote at hcr
            split at hcr
            · exact absurd hcr (by simp)
            injection hcr with hcr2
            injection h with h2
            injection h2 with h3 h4
            subst h3
            subst h4
            subst hcr2
            exact ⟨e, p, c, org, he, hp, hc, ho, hvc, rfl, rfl, rfl, rfl, hdup⟩

/-- A single `cast` request preserves "at most one row per (election,
position, resolved identity)". -/
theorem castVoteState_count_le (env : Env)
    (hm : (env.members.map fun m => m.id).Nodup)
    (now user eid pid cid e2 p2 u2 : Nat) (votes : List Vote)
    (h : countVotesBy env e2 p2 u2 votes ≤ 1) :
    countVotesBy env e2 p2 u2 (castVoteState env now user eid pid cid votes) ≤ 1 := by
  unfold castVoteState
  cases hc : castVote env now user eid pid cid votes with
  | error err => exact h
  | ok res =>
    obtain ⟨v, votes2⟩ := res
    obtain ⟨e, p, c, org, he, hp, hcand, ho, hvc, hve, hvp, hvcid, hv2, hdup⟩ :=
      castVote_ok env now user eid pid cid votes v votes2 hc
    subst hv2
    rw [countVotesBy, List.countP_append]
    rw [countVotesBy] at h
    by_cases hq : (decide (v.election = e2) && decide (v.position = p2)
        && voteCastBy env u2 v) = true
    · simp only [Bool.and_eq_true, decide_eq_true_eq] at hq
      obtain ⟨⟨hqe, hqp⟩, hqc⟩ := hq
      have hspec := voterColumns_spec env org user v.voter v.voter_user hvc hm v rfl rfl
      have hu2 : u2 = user := hspec.2 u2 hqc
      have hz : countVotesBy env e2 p2 u2 votes = 0 := by
        rw [← hqe, ← hqp, hu2, hve, hvp]
        exact count_zero_of_not_voted env e.id p.id user votes hdup
      rw [countVotesBy] at hz
      have hone : List.countP (fun v2 => decide (v2.election = e2) && decide (v2.position = p2)
          && voteCastBy env u2 v2) [v] ≤ 1 := by
        simp only [List.countP_cons, List.countP_nil, Nat.zero_add]
        split <;> omega
      omega
    · have hzero : List.countP (fun v2 => decide (v2.election = e2) && decide (v2.position = p2)
          && voteCastBy env u2 v2) [v] = 0 := by
        rw [List.countP_eq_zero]
        intro a ha
        rw [List.mem_singleton] at ha
        subst ha
        exact hq
      omega

/-! ## Characterisation of a successful bulk cast -/

/-- What the per-item validation loop guarantees about its output. -/
theorem bulkValidateItems_ok (env : Env) (user : Nat) (e : Election) (votes : List Vote) :
    ∀ (items : List (Nat × Nat)) (seen : List Nat) (pcs : List (Position × Candidate)),
      bulkValidateItems env user e votes items seen = .ok pcs →
      pcs.length = items.length ∧
      (∀ pc ∈ pcs, pc.1.election = e.id ∧
        has_user_voted_for_position env e.id pc.1.id user votes = false ∧
        pc.1.id ∉ seen) ∧
      (pcs.map fun pc => pc.1.id).Nodup := by
  intro items
  induction items with
  | nil =>
    intro seen pcs h
    unfold bulkValidateItems at h
    injection h with h2
    subst h2
    simp
  | cons item rest ih =>
    obtain ⟨pid, cid⟩ := item
    intro seen pcs h
    unfold bulkValidateItems at h
    split at h
    · exact absurd h (by simp)
    next hids =>
      split at h
      · exact absurd h (by simp)
      next hseen =>
        split at h
        · exact absurd h (by simp)
        next p hp =>
          split at h
          · exact absurd h (by simp)
          next c hc =>
            split at h
            · exact absurd h (by simp)
            next hdup =>
              split at h
              · exact absurd h (by simp)
              next others hrec =>
                injection h with h2
                subst h2
                obtain ⟨hlen, hall, hnd⟩ := ih (pid :: seen) others hrec
                have hpp := List.find?_some hp
                rw [decide_eq_true_eq] at hpp
                refine ⟨by simp [hlen], ?_, ?_⟩
                · intro pc hpc
                  rcases List.mem_cons.mp hpc with rfl | hmem
                  · exact ⟨hpp.2, by simpa using hdup, hpp.1 ▸ hseen⟩
                  · obtain ⟨ha, hb, hcseen⟩ := hall pc hmem
                    exact ⟨ha, hb, fun hs => hcseen (List.mem_cons_of_mem pid hs)⟩
                · rw [List.map_cons, List.nodup_cons]
                  refine ⟨?_, hnd⟩
                  intro hmem
                  obtain ⟨pc, hpc, hid⟩ := List.mem_map.mp hmem
                  obtain ⟨_, _, hcseen⟩ := hall pc hpc
                  exact hcseen (hid.trans hpp.1 ▸ List.mem_cons_self pid seen)

/-- The full bulk validation reduces to the per-item loop once the
election-level checks pass. -/
theorem bulkVoteValidate_ok (env : Env) (now user : Nat) (e : Election)
    (votes : List Vote) (items : List (Nat × Nat)) (pcs : List (Position × Candidate))
    (h : bulkVoteValidate env now user e votes items = .ok pcs) :
    bulkValidateItems env user e votes items [] = .ok pcs := by
  unfold bulkVoteValidate at h
  split at h
  · exact absurd h (by simp)
  next hcv =>
    split at h
    · exact absurd h (by simp)
    next org ho =>
      split at h
      · exact absurd h (by simp)
      next helig => exact h

/-- What the atomic create loop did on success: it appended exactly one row
per validated item, in order, all carrying the caster's columns. -/
theorem bulkCreateVotes_ok (env : Env) (now : Nat) (org : Organization) (user eid : Nat) :
    ∀ (pcs : List (Position × Candidate)) (votes created votesF : List Vote),
      bulkCreateVotes env now org user eid pcs votes = .ok (created, votesF) →
      votesF = votes ++ created ∧
      created.map (fun w => w.position) = pcs.map (fun pc => pc.1.id) ∧
      ∀ w ∈ created, w.election = eid ∧
        voterColumns env org user = .ok (w.voter, w.voter_user) := by
  intro pcs
  induction pcs with
  | nil =>
    intro votes created votesF h
    unfold bulkCreateVotes at h
    injection h with h2
    injection h2 with h3 h4
    subst h3
    subst h4
    simp
  | cons pc rest ih =>
    obtain ⟨p, c⟩ := pc
    intro votes created votesF h
    unfold bulkCreateVotes at h
    split at h
    · exact absurd h (by simp)
    next vr vu hvc =>
      simp only [] at h
      split at h
      · exact absurd h (by simp)
      next votes2 hcr =>
        split at h
        · exact absurd h (by simp)
        next created2 votesF2 hrec =>
          injection h with h2
          injection h2 with h3 h4
          subst h3
          subst h4
          obtain ⟨hF, hmap, hall⟩ := ih votes2 created2 votesF2 hrec
          unfold createVote at hcr
          split at hcr
          · exact absurd hcr (by simp)
          injection hcr with hcr2
          subst hcr2
          refine ⟨by simp [hF], by simp [hmap], ?_⟩
          intro w hw
          rcases List.mem_cons.mp hw with rfl | hmem
          · exact ⟨rfl, hvc⟩
          · exact hall w hmem

/-- A `bulk_cast` request preserves "at most one row per (election,
position, resolved identity)". -/
theorem bulkCastState_count_le (env : Env)
    (hm : (env.members.map fun m => m.id).Nodup)
    (now user eid : Nat) (items : List (Nat × Nat)) (e2 p2 u2 : Nat) (votes : List Vote)
    (h : countVotesBy env e2 p2 u2 votes ≤ 1) :
    countVotesBy env e2 p2 u2 (bulkCastState env now user eid items votes) ≤ 1 := by
  unfold bulkCastState
  cases hb : bulkCast env now user eid items votes with
  | error err => exact h
  | ok res =>
    obtain ⟨created, votesF⟩ := res
    unfold bulkCast at hb
    split at hb
    · exact absurd hb (by simp)
    next e he =>
      split at hb
      · exact absurd hb (by simp)
      split at hb
      · exact absurd hb (by simp)
      next pcs hval =>
        split at hb
        · exact absurd hb (by simp)
        next org ho =>
          obtain ⟨hF, hmap, hall⟩ :=
            bulkCreateVotes_ok env now org user e.id pcs votes created votesF hb
          obtain ⟨_, hitems, hndpcs⟩ :=
            bulkValidateItems_ok env user e votes items [] pcs
              (bulkVoteValidate_ok env now user e votes items pcs hval)
          subst hF
          rw [countVotesBy, List.countP_append]
          rw [countVotesBy] at h
          rcases Nat.eq_zero_or_pos (created.countP (fun v2 => decide (v2.election = e2)
              && decide (v2.position = p2) && voteCastBy env u2 v2)) with hz | hpos
          · omega
          · obtain ⟨w, hw, hqw⟩ := List.countP_pos_iff.mp hpos
            simp only [Bool.and_eq_true, decide_eq_true_eq] at hqw
            obtain ⟨⟨hqe, hqp⟩, hqc⟩ := hqw
            obtain ⟨hwe, hwvc⟩ := hall w hw
            have hspec := voterColumns_spec env org user w.voter w.voter_user hwvc hm w rfl rfl
            have hu2 : u2 = user := hspec.2 u2 hqc
            have hpmem : w.position ∈ pcs.map fun pc => pc.1.id := by
              rw [← hmap]
              exact List.mem_map_of_mem (fun w2 => w2.position) hw
            obtain ⟨pc, hpc, hpcid⟩ := List.mem_map.mp hpmem
            obtain ⟨_, hnotvoted, _⟩ := hitems pc hpc
            have hzv : List.countP (fun v2 => decide (v2.election = e2)
                && decide (v2.position = p2) && voteCastBy env u2 v2) votes = 0 := by
              have := count_zero_of_not_voted env e.id pc.1.id user votes hnotvoted
              rw [countVotesBy] at this
              rw [← hqe, ← hqp, hu2, hwe, ← hpcid]
              exact this
            have hle : List.countP (fun v2 => decide (v2.election = e2)
                && decide (v2.position = p2) && voteCastBy env u2 v2) created ≤ 1 := by
              refine countP_le_one_of_key (fun w2 => w2.position) _ p2 created ?_ ?_
              · rw [hmap]; exact hndpcs
              · intro x _ hqx
                simp only [Bool.and_eq_true, decide_eq_true_eq] at hqx
                exact hqx.1.2
            omega

/-- Every request sequence keeps at most one row per (election, position,
resolved identity), starting from any table already satisfying it. -/
theorem runBallotOps_count_le (env : Env)
    (hm : (env.members.map fun m => m.id).Nodup) :
    ∀ (ops : List BallotOp) (votes : List Vote),
      (∀ e p u, countVotesBy env e p u votes ≤ 1) →
      ∀ e p u, countVotesBy env e p u (runBallotOps env votes ops) ≤ 1 := by
  intro ops
  induction ops with
  | nil => intro votes h; exact h
  | cons op rest ih =>
    intro votes h
    have hstep : ∀ e p u, countVotesBy env e p u (applyBallotOp env votes op) ≤ 1 := by
      intro e p u
      cases op with
      | single now user eid pid cid =>
        exact castVoteState_count_le env hm now user eid pid cid e p u votes (h e p u)
      | bulk now user eid items =>
        exact bulkCastState_count_le env hm now user eid items e p u votes (h e p u)
    intro e p u
    rw [runBallotOps, List.foldl_cons]
    exact ih (applyBallotOp env votes op) hstep e p u

/-- Repeating a successful `cast` with identical arguments hits the
duplicate check. -/
theorem castVote_again_duplicate (env : Env)
    (hm : (env.members.map fun m => m.id).Nodup)
    (now user eid pid cid : Nat) (votes : List Vote) (v : Vote) (votes2 : List Vote)
    (h : castVote env now user eid pid cid votes = .ok (v, votes2)) :
    castVote env now user eid pid cid votes2 = .error .duplicateVote := by
  obtain ⟨e, p, c, org, he, hp, hc, ho, hvc, hve, hvp, hvcid, hv2, hdup⟩ :=
    castVote_ok env now user eid pid cid votes v votes2 h
  have hcast : voteCastBy env user v = true :=
    (voterColumns_spec env org user v.voter v.voter_user hvc hm v rfl rfl).1
  have hvoted : has_user_voted_for_position env e.id p.id user votes2 = true := by
    subst hv2
    exact voted_of_mem env e.id p.id user (votes ++ [v]) v (by simp) hve hvp hcast
  simp only [castVote, he, castVoteValidate, hp, hc, hvoted, if_true]

/-! ## Result tallying -/

/-- The grouped per-candidate counts add up to the number of votes that
were grouped. -/
theorem positionVoteGroups_sum (filtered : List Vote) :
    ((positionVoteGroups filtered).map (fun g => g.2)).sum = filtered.length := by
  unfold positionVoteGroups
  rw [List.map_map]
  have hcongr : ((filtered.map fun v => v.candidate).dedup.map
      ((fun g : Nat × Nat => g.2)
        ∘ fun cid => (cid, filtered.countP fun v => decide (v.candidate = cid)))) =
      ((filtered.map fun v => v.candidate).dedup.map
        fun cid => (filtered.map fun v => v.candidate).count cid) := by
    apply List.map_congr_left
    intro cid _
    show filtered.countP (fun v => decide (v.candidate = cid))
      = (filtered.map fun v => v.candidate).count cid
    rw [List.count_eq_countP, List.countP_map]
    apply List.countP_congr
    intro v _
    show decide (v.candidate = cid) = true ↔ (v.candidate == cid) = true
    simp
  rw [hcongr, List.sum_map_count_dedup_eq_length, List.length_map]

/-! ## Concrete fixtures -/

/-- Organization 1 owned by user 5; election 1 scheduled from 10 to 20 with
two positions; candidates A and B contest position 1, C contests
position 2; user 7 is an approved member through membership row 1. -/
def envW : Env :=
  { organizations := [{ id := 1, owner := 5 }]
    elections := [{ id := 1, organization := 1, start_at := 10, end_at := 20,
                    status := .scheduled }]
    positions := [{ id := 1, election := 1 }, { id := 2, election := 1 }]
    candidates := [{ id := 1, position := 1, name := "A" },
                   { id := 2, position := 1, name := "B" },
                   { id := 3, position := 2, name := "C" }]
    members := [{ id := 1, user := 7, organization := 1, membership_status := .approved }] }

/-- A stored vote by user 7 (through membership row 1) for candidate 1. -/
def voteW : Vote :=
  { election := 1, position := 1, candidate := 1, voter := some 1, voter_user := none }

/-- A malformed row with both voter columns populated. -/
def voteBothW : Vote :=
  { election := 1, position := 1, candidate := 1, voter := some 1, voter_user := some 5 }

/-- A scheduled election row. -/
def electionScheduledW : Election :=
  { id := 1, organization := 1, start_at := 10, end_at := 20, status := .scheduled }

/-- An already completed election row. -/
def electionCompletedW : Election :=
  { id := 2, organization := 1, start_at := 10, end_at := 20, status := .completed }

/-! ## Claims -/

/-- C3: `deriveStatus` returns completed whenever the current status is
already completed; otherwise it returns scheduled when now < start_at,
ongoing when start_at ≤ now < end_at, and completed when now ≥ end_at; and
once it returns completed it returns completed on every subsequent call. -/
theorem deriveStatus_lifecycle (now now2 start_at end_at : Nat) (st : ElectionStatus)
    (hse : start_at < end_at) :
    (st = .completed → deriveStatus now start_at end_at st = .completed) ∧
    (st ≠ .completed →
      ((now < start_at → deriveStatus now start_at end_at st = .scheduled) ∧
       (start_at ≤ now → now < end_at → deriveStatus now start_at end_at st = .ongoing) ∧
       (end_at ≤ now → deriveStatus now start_at end_at st = .completed))) ∧
    (deriveStatus now start_at end_at st = .completed →
      deriveStatus now2 start_at end_at (deriveStatus now start_at end_at st) = .completed) := by
  refine ⟨?_, ?_, ?_⟩
  · intro h
    subst h
    unfold deriveStatus
    rw [if_pos rfl]
  · intro h
    refine ⟨?_, ?_, ?_⟩
    · intro h1
      unfold deriveStatus
      rw [if_neg h, if_pos h1]
    · intro h1 h2
      unfold deriveStatus
      rw [if_neg h, if_neg (by omega), if_pos ⟨h1, h2⟩]
    · intro h1
      unfold deriveStatus
      rw [if_neg h, if_neg (by omega), if_neg (by omega), if_pos h1]
  · intro h
    rw [h]
    unfold deriveStatus
    rw [if_pos rfl]

/-- Witness for C3 at concrete instants. -/
theorem deriveStatus_lifecycle_witness :
    (10 : Nat) < 20 ∧ ElectionStatus.scheduled ≠ .completed ∧ (20 : Nat) ≤ 25 ∧
    deriveStatus 25 10 20 .scheduled = .completed :=
  ⟨by decide, by decide, by decide,
    ((deriveStatus_lifecycle 25 0 10 20 .scheduled (by decide)).2.1 (by decide)).2.2 (by decide)⟩

/-- C10: a scheduled election whose end time has already passed is moved
directly to completed by one status derivation, never through ongoing. -/
theorem update_status_skips_ongoing (e : Election) (now : Nat)
    (hst : e.status = .scheduled) (hse : e.start_at < e.end_at)
    (hend : e.end_at ≤ now) :
    (e.update_status now).status = .completed := by
  have hd : deriveStatus now e.start_at e.end_at e.status = .completed := by
    rw [hst]
    unfold deriveStatus
    rw [if_neg (by decide), if_neg (by omega), if_neg (by omega), if_pos hend]
  unfold Election.update_status
  exact hd

/-- Witness for C10: the fixture election at instant 25. -/
theorem update_status_skips_ongoing_witness :
    electionScheduledW.status = .scheduled ∧
    electionScheduledW.start_at < electionScheduledW.end_at ∧
    electionScheduledW.end_at ≤ 25 ∧
    (electionScheduledW.update_status 25).status = .completed :=
  ⟨by decide, by decide, by decide,
    update_status_skips_ongoing electionScheduledW 25 (by decide) (by decide) (by decide)⟩

/-- C8: the manual start endpoint succeeds (status becomes ongoing) exactly
when the election is scheduled and rejects otherwise leaving the row
unchanged; the manual end endpoint succeeds (status becomes completed) when
the election is scheduled or ongoing and rejects an already completed
election leaving the row unchanged. -/
theorem manual_start_end_transitions (e : Election) :
    (e.status = .scheduled → startAction e = .ok { e with status := .ongoing }) ∧
    (e.status ≠ .scheduled →
      startAction e = .error .invalidTransition ∧ startActionState e = e) ∧
    (e.status = .scheduled ∨ e.status = .ongoing →
      endAction e = .ok { e with status := .completed }) ∧
    (e.status = .completed →
      endAction e = .error .invalidTransition ∧ endActionState e = e) := by
  refine ⟨?_, ?_, ?_, ?_⟩
  · intro h
    unfold startAction Election.startElection
    rw [if_neg (by simp [h]), if_pos h]
  · intro h
    have h1 : startAction e = .error .invalidTransition := by
      unfold startAction
      rw [if_pos h]
    exact ⟨h1, by unfold startActionState; rw [h1]⟩
  · intro h
    have hne : ¬ e.status = .completed := by
      rcases h with h | h <;> simp [h]
    unfold endAction Election.endElection
    rw [if_neg hne, if_pos h]
  · intro h
    have h1 : endAction e = .error .invalidTransition := by
      unfold endAction
      rw [if_pos h]
    exact ⟨h1, by unfold endActionState; rw [h1]⟩

/-- Witness for C8 on concrete scheduled and completed elections. -/
theorem manual_start_end_transitions_witness :
    startAction electionScheduledW = .ok { electionScheduledW with status := .ongoing } ∧
    startAction electionCompletedW = .error .invalidTransition ∧
    startActionState electionCompletedW = electionCompletedW ∧
    endAction electionScheduledW = .ok { electionScheduledW with status := .completed } ∧
    endAction electionCompletedW = .error .invalidTransition ∧
    endActionState electionCompletedW = electionCompletedW :=
  ⟨(manual_start_end_transitions electionScheduledW).1 (by decide),
   ((manual_start_end_transitions electionCompletedW).2.1 (by decide)).1,
   ((manual_start_end_transitions electionCompletedW).2.1 (by decide)).2,
   (manual_start_end_transitions electionScheduledW).2.2.1 (Or.inl (by decide)),
   ((manual_start_end_transitions electionCompletedW).2.2.2 (by decide)).1,
   ((manual_start_end_transitions electionCompletedW).2.2.2 (by decide)).2⟩

/-- The columns produced by the cast paths always populate exactly one of
the two voter references. -/
theorem voterColumns_exactly_one (env : Env) (org : Organization) (user : Nat)
    (vr vu : Option Nat) (h : voterColumns env org user = .ok (vr, vu)) :
    (vr = none ∧ vu ≠ none) ∨ (vr ≠ none ∧ vu = none) := by
  unfold voterColumns at h
  split at h
  · injection h with h2
    injection h2 with h3 h4
    subst h3
    subst h4
    exact Or.inl ⟨rfl, by simp⟩
  · split at h
    next m hm =>
      injection h with h2
      injection h2 with h3 h4
      subst h3
      subst h4
      exact Or.inr ⟨by simp, rfl⟩
    · exact absurd h (by simp)

/-- What a successful `bulk_cast` request did. -/
theorem bulkCast_ok (env : Env) (now user eid : Nat) (items : List (Nat × Nat))
    (votes created votesF : List Vote)
    (h : bulkCast env now user eid items votes = .ok (created, votesF)) :
    ∃ e org pcs,
      env.elections.find? (fun x => decide (x.id = eid)) = some e ∧
      env.organizations.find? (fun o => decide (o.id = e.organization)) = some org ∧
      bulkValidateItems env user e votes items [] = .ok pcs ∧
      votesF = votes ++ created ∧
      created.map (fun w => w.position) = pcs.map (fun pc => pc.1.id) ∧
      pcs.length = items.length ∧
      (pcs.map fun pc => pc.1.id).Nodup ∧
      (∀ pc ∈ pcs, pc.1.election = e.id ∧
        has_user_voted_for_position env e.id pc.1.id user votes = false) ∧
      ∀ w ∈ created, w.election = e.id ∧
        voterColumns env org user = .ok (w.voter, w.voter_user) := by
  unfold bulkCast at h
  split at h
  · exact absurd h (by simp)
  next e he =>
    split at h
    · exact absurd h (by simp)
    split at h
    · exact absurd h (by simp)
    next pcs hval =>
      split at h
      · exact absurd h (by simp)
      next org ho =>
        obtain ⟨hF, hmap, hall⟩ :=
          bulkCreateVotes_ok env now org user e.id pcs votes created votesF h
        obtain ⟨hlen, hitems, hnd⟩ :=
          bulkValidateItems_ok env user e votes items [] pcs
            (bulkVoteValidate_ok env now user e votes items pcs hval)
        exact ⟨e, org, pcs, he, ho,
          bulkVoteValidate_ok env now user e votes items pcs hval,
          hF, hmap, hlen, hnd,
          fun pc hpc => ⟨(hitems pc hpc).1, (hitems pc hpc).2.1⟩, hall⟩

/-- C4 counterexample: a Vote with BOTH voter columns populated passes
model validation and is persisted by the save path — "never both" is not
rejected. -/
theorem vote_both_columns_counterexample :
    voteBothW.voter ≠ none ∧ voteBothW.voter_user ≠ none ∧
    Vote.clean envW 15 voteBothW = .ok () ∧
    createVote envW 15 voteBothW [] = .ok [voteBothW] := by decide

/-- C4 (amended): every write path rejects a Vote with neither voter column
set, and the cast/bulk-cast request paths only ever create Votes with
exactly one of the two columns set; model validation does not, however,
reject a Vote carrying both columns. -/
theorem vote_voter_columns (env : Env) :
    (∀ (now : Nat) (v : Vote), v.voter = none → v.voter_user = none →
      Vote.clean env now v = .error .missingVoter) ∧
    (∀ now user eid pid cid votes v votes2,
      castVote env now user eid pid cid votes = .ok (v, votes2) →
      (v.voter = none ∧ v.voter_user ≠ none) ∨ (v.voter ≠ none ∧ v.voter_user = none)) ∧
    (∀ now user eid items votes created votesF,
      bulkCast env now user eid items votes = .ok (created, votesF) →
      ∀ w ∈ created,
        (w.voter = none ∧ w.voter_user ≠ none) ∨ (w.voter ≠ none ∧ w.voter_user = none)) := by
  refine ⟨?_, ?_, ?_⟩
  · intro now v h1 h2
    unfold Vote.clean
    rw [if_pos ⟨h1, h2⟩]
  · intro now user eid pid cid votes v votes2 h
    obtain ⟨e, p, c, org, he, hp, hc, ho, hvc, hve, hvp, hvcid, hv2, hdup⟩ :=
      castVote_ok env now user eid pid cid votes v votes2 h
    exact voterColumns_exactly_one env org user v.voter v.voter_user hvc
  · intro now user eid items votes created votesF h
    obtain ⟨e, org, pcs, he, ho, hval, hF, hmap, hlen, hnd, hitems, hall⟩ :=
      bulkCast_ok env now user eid items votes created votesF h
    intro w hw
    exact voterColumns_exactly_one env org user w.voter w.voter_user (hall w hw).2

/-- Witness for C4 (amended): a neither-column Vote is rejected, and a
successful concrete cast populates exactly one column. -/
theorem vote_voter_columns_witness :
    Vote.clean envW 15
      { election := 1, position := 1, candidate := 1, voter := none, voter_user := none }
      = .error .missingVoter ∧
    ((voteW.voter = none ∧ voteW.voter_user ≠ none) ∨
      (voteW.voter ≠ none ∧ voteW.voter_user = none)) :=
  ⟨(vote_voter_columns envW).1 15
      { election := 1, position := 1, candidate := 1, voter := none, voter_user := none }
      rfl rfl,
   (vote_voter_columns envW).2.1 15 7 1 1 1 [] voteW [voteW] (by decide)⟩

/-- C5 counterexample: at instant 25 election 1 re-derives to completed
(not ongoing), yet a caller who has already voted for the position gets
DuplicateVote, not VotingClosed — the duplicate check runs first. -/
theorem voting_closed_duplicate_counterexample :
    deriveStatus 25 10 20 .scheduled ≠ .ongoing ∧
    castVote envW 25 7 1 1 1 [voteW] = .error .duplicateVote ∧
    castVote envW 25 7 1 1 1 [voteW] ≠ .error .votingClosed := by decide

/-- C5 (amended): when the re-derived status is not ongoing, every castVote
call fails and stores nothing; it fails with VotingClosed provided the
position and candidate resolve and the caller has not already voted for
the position, but an already-voted caller is rejected by the duplicate
check (DuplicateVote) before the activity check is reached. -/
theorem castVote_requires_ongoing (env : Env) (now user eid pid cid : Nat)
    (votes : List Vote) (e : Election)
    (he : env.elections.find? (fun x => decide (x.id = eid)) = some e)
    (hs : deriveStatus now e.start_at e.end_at e.status ≠ .ongoing) :
    (∃ err, castVote env now user eid pid cid votes = .error err) ∧
    castVoteState env now user eid pid cid votes = votes ∧
    (∀ p c,
      env.positions.find? (fun x => decide (x.id = pid ∧ x.election = e.id)) = some p →
      env.candidates.find? (fun x => decide (x.id = cid ∧ x.position = p.id)) = some c →
      has_user_voted_for_position env e.id p.id user votes = false →
      castVote env now user eid pid cid votes = .error .votingClosed) := by
  have hcv : e.can_vote now = false := by
    unfold Election.can_vote Election.is_active Election.update_status
    exact decide_eq_false hs
  have h1 : ∃ err, castVote env now user eid pid cid votes = .error err := by
    cases hv : castVoteValidate env now user e pid cid votes with
    | error err => exact ⟨err, by simp [castVote, he, hv]⟩
    | ok pc =>
      obtain ⟨p, c⟩ := pc
      obtain ⟨_, _, _, hct⟩ := castVoteValidate_ok env now user e pid cid votes p c hv
      rw [hct] at hcv
      cases hcv
  refine ⟨h1, ?_, ?_⟩
  · obtain ⟨err, herr⟩ := h1
    unfold castVoteState
    rw [herr]
  · intro p c hp hc hnv
    simp only [castVote, he]
    simp only [castVoteValidate, hp, hc, hnv]
    simp [hcv]

/-- Witness for C5 (amended): a caller with no prior vote on the closed
fixture election gets VotingClosed and the table is unchanged. -/
theorem castVote_requires_ongoing_witness :
    deriveStatus 25 10 20 .scheduled ≠ .ongoing ∧
    castVote envW 25 7 1 1 1 [] = .error .votingClosed ∧
    castVoteState envW 25 7 1 1 1 [] = [] :=
  ⟨by decide,
   (castVote_requires_ongoing envW 25 7 1 1 1 [] electionScheduledW
      (by decide) (by decide)).2.2
      { id := 1, election := 1 } { id := 1, position := 1, name := "A" }
      (by decide) (by decide) (by decide),
   (castVote_requires_ongoing envW 25 7 1 1 1 [] electionScheduledW
      (by decide) (by decide)).2.1⟩

/-- The membership-column query matches exactly the votes whose membership
row belongs to the user (membership ids being unique). -/
theorem voteMatchesMember_iff (env : Env)
    (hm : (env.members.map fun m => m.id).Nodup) (user : Nat) (v : Vote) :
    voteMatchesMember env user v = true ↔
      ∃ m ∈ env.members, v.voter = some m.id ∧ m.user = user := by
  cases hv : v.voter with
  | none => simp [voteMatchesMember, hv]
  | some mid =>
    cases hf : env.members.find? (fun m => decide (m.id = mid)) with
    | none =>
      have hval : voteMatchesMember env user v = false := by
        simp only [voteMatchesMember, hv, hf]
      rw [hval]
      simp only [Bool.false_eq_true, false_iff]
      rintro ⟨m, hmem, hvm, hmu⟩
      injection hvm with h2
      have hnone := List.find?_eq_none.mp hf m hmem
      rw [decide_eq_true_eq] at hnone
      exact hnone h2.symm
    | some m =>
      have hval : voteMatchesMember env user v = decide (m.user = user) := by
        simp only [voteMatchesMember, hv, hf]
      rw [hval]
      have hmem := List.mem_of_find?_eq_some hf
      have hid : m.id = mid := by
        have := List.find?_some hf
        rwa [decide_eq_true_eq] at this
      constructor
      · intro h
        exact ⟨m, hmem, by rw [hid], decide_eq_true_eq.mp h⟩
      · rintro ⟨m2, hmem2, hvm2, hmu2⟩
        injection hvm2 with h2
        have hfind2 := find?_key_eq (fun x => x.id) env.members hm m2 hmem2
        simp only [] at hfind2
        rw [h2] at hf
        rw [hf] at hfind2
        injection hfind2 with h3
        rw [h3]
        exact decide_eq_true_eq.mpr hmu2

/-- C9: duplicate detection is per user across both voter columns: the
check fires exactly when some stored vote for the (election, position) was
cast either through a membership row belonging to the user or through the
direct voter_user reference — and a user with such a prior vote can never
cast again for that position. -/
theorem duplicate_check_spans_both_columns (env : Env)
    (hm : (env.members.map fun m => m.id).Nodup)
    (eid pid user : Nat) (votes : List Vote) :
    (has_user_voted_for_position env eid pid user votes = true ↔
      ∃ v ∈ votes, v.election = eid ∧ v.position = pid ∧
        ((∃ m ∈ env.members, v.voter = some m.id ∧ m.user = user) ∨
          v.voter_user = some user)) ∧
    (∀ now cid,
      (∃ v ∈ votes, v.election = eid ∧ v.position = pid ∧
        ((∃ m ∈ env.members, v.voter = some m.id ∧ m.user = user) ∨
          v.voter_user = some user)) →
      ∃ err, castVote env now user eid pid cid votes = .error err) := by
  have hiff : has_user_voted_for_position env eid pid user votes = true ↔
      ∃ v ∈ votes, v.election = eid ∧ v.position = pid ∧
        ((∃ m ∈ env.members, v.voter = some m.id ∧ m.user = user) ∨
          v.voter_user = some user) := by
    rw [has_user_voted_for_position, Bool.or_eq_true, List.any_eq_true, List.any_eq_true]
    constructor
    · rintro (⟨v, hv, hq⟩ | ⟨v, hv, hq⟩)
      · simp only [Bool.and_eq_true, decide_eq_true_eq] at hq
        exact ⟨v, hv, hq.1.1, hq.1.2,
          Or.inl ((voteMatchesMember_iff env hm user v).mp hq.2)⟩
      · simp only [Bool.and_eq_true, decide_eq_true_eq] at hq
        exact ⟨v, hv, hq.1.1, hq.1.2, Or.inr hq.2⟩
    · rintro ⟨v, hv, ha, hb, hmo⟩
      rcases hmo with hmem | hown
      · refine Or.inl ⟨v, hv, ?_⟩
        have := (voteMatchesMember_iff env hm user v).mpr hmem
        simp [ha, hb, this]
      · exact Or.inr ⟨v, hv, by simp [ha, hb, hown]⟩
  refine ⟨hiff, ?_⟩
  intro now cid hex
  have hvoted := hiff.mpr hex
  cases he : env.elections.find? (fun x => decide (x.id = eid)) with
  | none => exact ⟨.electionNotFound, by simp [castVote, he]⟩
  | some e =>
    have heid : e.id = eid := by
      have := List.find?_some he
      rwa [decide_eq_true_eq] at this
    cases hp : env.positions.find? (fun x => decide (x.id = pid ∧ x.election = e.id)) with
    | none =>
      refine ⟨.positionNotFound, ?_⟩
      simp only [castVote, he]
      simp only [castVoteValidate, hp]
    | some p =>
      have hpid : p.id = pid := by
        have := List.find?_some hp
        rw [decide_eq_true_eq] at this
        exact this.1
      cases hcand : env.candidates.find? (fun x => decide (x.id = cid ∧ x.position = p.id)) with
      | none =>
        refine ⟨.candidateNotFound, ?_⟩
        simp only [castVote, he]
        simp only [castVoteValidate, hp, hcand]
      | some c =>
        have hv2 : has_user_voted_for_position env e.id p.id user votes = true := by
          rw [heid, hpid]
          exact hvoted
        refine ⟨.duplicateVote, ?_⟩
        simp only [castVote, he]
        simp only [castVoteValidate, hp, hcand, hv2, if_true]

/-- Witness for C9 on the fixture: `voteW` was cast through membership row
1 of user 7, so the check fires and a repeat cast is rejected. -/
theorem duplicate_check_spans_both_columns_witness :
    ((envW.members.map fun m => m.id).Nodup) ∧
    has_user_voted_for_position envW 1 1 7 [voteW] = true ∧
    ∃ err, castVote envW 15 7 1 1 2 [voteW] = .error err :=
  ⟨by decide,
   (duplicate_check_spans_both_columns envW (by decide) 1 1 7 [voteW]).1.mpr
     ⟨voteW, by decide, rfl, rfl,
       Or.inl ⟨{ id := 1, user := 7, organization := 1, membership_status := .approved },
         by decide, rfl, rfl⟩⟩,
   (duplicate_check_spans_both_columns envW (by decide) 1 1 7 [voteW]).2 15 2
     ⟨voteW, by decide, rfl, rfl,
       Or.inl ⟨{ id := 1, user := 7, organization := 1, membership_status := .approved },
         by decide, rfl, rfl⟩⟩⟩

/-- C1: calling castVote twice with identical arguments yields one stored
Vote and one DuplicateVote rejection, and after any sequence of castVote
and castBallot requests at most one Vote row exists per (election,
position, resolved voter identity). -/
theorem castVote_idempotent_rejection (env : Env)
    (hm : (env.members.map fun m => m.id).Nodup) :
    (∀ (ops : List BallotOp) (election position user : Nat),
      countVotesBy env election position user (runBallotOps env [] ops) ≤ 1) ∧
    (∀ now user eid pid cid votes v votes2,
      castVote env now user eid pid cid votes = .ok (v, votes2) →
      votes2 = votes ++ [v] ∧
      castVote env now user eid pid cid votes2 = .error .duplicateVote) := by
  constructor
  · intro ops e p u
    exact runBallotOps_count_le env hm ops []
      (fun _ _ _ => by simp [countVotesBy]) e p u
  · intro now user eid pid cid votes v votes2 h
    refine ⟨?_, castVote_again_duplicate env hm now user eid pid cid votes v votes2 h⟩
    obtain ⟨e, p, c, org, he, hp, hc, ho, hvc, hve, hvp, hvcid, hv2, hdup⟩ :=
      castVote_ok env now user eid pid cid votes v votes2 h
    exact hv2

/-- Witness for C1: a double cast on the fixture stores one row and is then
rejected as a duplicate. -/
theorem castVote_idempotent_rejection_witness :
    ((envW.members.map fun m => m.id).Nodup) ∧
    countVotesBy envW 1 1 7
      (runBallotOps envW [] [.single 15 7 1 1 1, .single 15 7 1 1 1]) ≤ 1 ∧
    ([voteW] = ([] : List Vote) ++ [voteW] ∧
      castVote envW 15 7 1 1 1 [voteW] = .error .duplicateVote) :=
  ⟨by decide,
   (castVote_idempotent_rejection envW (by decide)).1
     [.single 15 7 1 1 1, .single 15 7 1 1 1] 1 1 7,
   (castVote_idempotent_rejection envW (by decide)).2 15 7 1 1 1 [] voteW [voteW]
     (by decide)⟩

/-- C2: a castBallot request commits all-or-nothing: either it errors and
the stored votes are unchanged, or it succeeds and appends exactly one new
Vote row per submitted item. -/
theorem bulkCast_all_or_nothing (env : Env) (now user eid : Nat)
    (items : List (Nat × Nat)) (votes : List Vote) :
    (∃ err, bulkCast env now user eid items votes = .error err ∧
      bulkCastState env now user eid items votes = votes) ∨
    (∃ created, bulkCast env now user eid items votes = .ok (created, votes ++ created) ∧
      bulkCastState env now user eid items votes = votes ++ created ∧
      created.length = items.length) := by
  cases hb : bulkCast env now user eid items votes with
  | error err =>
    exact Or.inl ⟨err, rfl, by unfold bulkCastState; rw [hb]⟩
  | ok res =>
    obtain ⟨created, votesF⟩ := res
    obtain ⟨e, org, pcs, he, ho, hval, hF, hmap, hlen, hnd, hitems, hall⟩ :=
      bulkCast_ok env now user eid items votes created votesF hb
    subst hF
    refine Or.inr ⟨created, rfl, by unfold bulkCastState; rw [hb], ?_⟩
    have h2 := congrArg List.length hmap
    simp only [List.length_map] at h2
    omega

/-- C7: the vote counts returned by resultsForPosition sum to total_votes,
which equals the number of stored Vote rows for the position. -/
theorem results_counts_sum_to_total (env : Env) (p : Position) (votes : List Vote) :
    (((get_results_for_position env p votes).candidates.map fun r => r.vote_count).sum
        = (get_results_for_position env p votes).total_votes) ∧
    (get_results_for_position env p votes).total_votes
        = votes.countP fun v => decide (v.position = p.id) := by
  have hA : ∀ (l : List (Nat × Nat)) (tv : Nat),
      ((l.map fun g =>
        ({ candidate_id := g.1, candidate_name := candidateNameOf env g.1, vote_count := g.2,
           percentage := if tv > 0 then (g.2 : Rat) / (tv : Rat) * 100 else 0 }
          : CandidateResult)).map fun r => r.vote_count) = l.map fun g => g.2 := by
    intro l tv
    rw [List.map_map]
    rfl
  have hB : ∀ (lc : List Candidate),
      ((lc.map fun c =>
        ({ candidate_id := c.id, candidate_name := c.name, vote_count := 0, percentage := 0 }
          : CandidateResult)).map fun r => r.vote_count) = lc.map fun _ => (0 : Nat) := by
    intro lc
    rw [List.map_map]
    rfl
  constructor
  · unfold get_results_for_position
    simp only []
    rw [List.map_append, List.sum_append, hA, hB]
    have hz : (((env.candidates.filter fun c => decide (c.position = p.id)
        && ! ((((positionVoteGroups (votes.filter fun v => decide (v.position = p.id))).mergeSort
            fun a b => decide (b.2 ≤ a.2)).map fun g =>
              ({ candidate_id := g.1, candidate_name := candidateNameOf env g.1,
                 vote_count := g.2,
                 percentage := if (votes.filter fun v => decide (v.position = p.id)).length > 0
                   then (g.2 : Rat)
                     / (((votes.filter fun v => decide (v.position = p.id)).length : Nat) : Rat)
                       * 100
                   else 0 } : CandidateResult)).map fun r => r.candidate_id).contains c.id).map
        fun _ => (0 : Nat)).sum) = 0 := by
      apply List.sum_eq_zero
      intro x hx
      obtain ⟨c2, _, hc2⟩ := List.mem_map.mp hx
      exact hc2.symm
    rw [hz]
    have hperm : (((positionVoteGroups (votes.filter fun v =>
        decide (v.position = p.id))).mergeSort fun a b => decide (b.2 ≤ a.2)).map
          fun g => g.2).sum
        = ((positionVoteGroups (votes.filter fun v => decide (v.position = p.id))).map
            fun g => g.2).sum :=
      ((List.mergeSort_perm _ _).map fun g : Nat × Nat => g.2).sum_eq
    rw [hperm, positionVoteGroups_sum]
    omega
  · unfold get_results_for_position
    simp only []
    exact (List.countP_eq_length_filter _ _).symm

/-- C6: resultsForPosition lists every candidate of the position, and a
candidate with no stored vote for the position appears with vote_count 0
and percentage 0 — in particular every candidate does when total_votes
is 0. -/
theorem results_include_zero_vote_candidates (env : Env) (p : Position)
    (votes : List Vote) (c : Candidate)
    (hc : c ∈ env.candidates) (hp : c.position = p.id) :
    ∃ r ∈ (get_results_for_position env p votes).candidates,
      r.candidate_id = c.id ∧
      (votes.countP (fun v => decide (v.position = p.id ∧ v.candidate = c.id)) = 0 →
        r.vote_count = 0 ∧ r.percentage = 0) ∧
      ((get_results_for_position env p votes).total_votes = 0 →
        r.vote_count = 0 ∧ r.percentage = 0) := by
  have htot : (get_results_for_position env p votes).total_votes
      = (votes.filter fun v => decide (v.position = p.id)).length := rfl
  by_cases hin : c.id ∈ (votes.filter fun v => decide (v.position = p.id)).map
      fun v => v.candidate
  · obtain ⟨v, hvf, hvc⟩ := List.mem_map.mp hin
    obtain ⟨hvv, hvp⟩ := List.mem_filter.mp hvf
    have hdedup : c.id ∈ ((votes.filter fun v => decide (v.position = p.id)).map
        fun v => v.candidate).dedup := List.mem_dedup.mpr hin
    have hgroups : (c.id, (votes.filter fun v => decide (v.position = p.id)).countP
        fun v2 => decide (v2.candidate = c.id)) ∈
        positionVoteGroups (votes.filter fun v => decide (v.position = p.id)) :=
      List.mem_map_of_mem _ hdedup
    have hsorted : (c.id, (votes.filter fun v => decide (v.position = p.id)).countP
        fun v2 => decide (v2.candidate = c.id)) ∈
        (positionVoteGroups (votes.filter fun v => decide (v.position = p.id))).mergeSort
          fun a b => decide (b.2 ≤ a.2) :=
      (List.mergeSort_perm _ _).mem_iff.mpr hgroups
    refine ⟨_, List.mem_append_left _ (List.mem_map_of_mem _ hsorted), rfl, ?_, ?_⟩
    · intro h0
      have hnv := List.countP_eq_zero.mp h0 v hvv
      exact absurd (by rw [decide_eq_true_eq]; exact ⟨of_decide_eq_true hvp, hvc⟩) hnv
    · intro h0
      rw [htot, List.length_eq_zero] at h0
      rw [h0] at hvf
      cases hvf
  · have hcont : ((((positionVoteGroups (votes.filter fun v =>
        decide (v.position = p.id))).mergeSort fun a b => decide (b.2 ≤ a.2)).map fun g =>
          ({ candidate_id := g.1, candidate_name := candidateNameOf env g.1, vote_count := g.2,
             percentage := if (votes.filter fun v => decide (v.position = p.id)).length > 0
               then (g.2 : Rat)
                 / (((votes.filter fun v => decide (v.position = p.id)).length : Nat) : Rat) * 100
               else 0 } : CandidateResult)).map fun r => r.candidate_id).contains c.id
        = false := by
      rw [List.contains_eq_any_beq, List.any_eq_false]
      intro x hx
      rw [List.map_map] at hx
      obtain ⟨g, hg, hgx⟩ := List.mem_map.mp hx
      simp only [Function.comp] at hgx
      intro hbeq
      rw [beq_iff_eq] at hbeq
      have hgg := (List.mergeSort_perm _ _).mem_iff.mp hg
      obtain ⟨cid, hcid, hcg⟩ := List.mem_map.mp hgg
      apply hin
      have hx1 : g.1 = x := hgx
      have hx2 : g.1 = cid := by rw [← hcg]
      have : c.id = cid := by rw [hbeq, ← hx1, hx2]
      rw [this]
      exact List.mem_dedup.mp hcid
    have hfmem : c ∈ env.candidates.filter fun c2 => decide (c2.position = p.id)
        && ! ((((positionVoteGroups (votes.filter fun v =>
          decide (v.position = p.id))).mergeSort fun a b => decide (b.2 ≤ a.2)).map fun g =>
            ({ candidate_id := g.1, candidate_name := candidateNameOf env g.1, vote_count := g.2,
               percentage := if (votes.filter fun v => decide (v.position = p.id)).length > 0
                 then (g.2 : Rat)
                   / (((votes.filter fun v => decide (v.position = p.id)).length : Nat) : Rat)
                     * 100
                 else 0 } : CandidateResult)).map fun r => r.candidate_id).contains c2.id := by
      rw [List.mem_filter]
      refine ⟨hc, ?_⟩
      rw [Bool.and_eq_true]
      exact ⟨decide_eq_true hp, by rw [hcont]; rfl⟩
    exact ⟨_, List.mem_append_right _ (List.mem_map_of_mem _ hfmem), rfl,
      fun _ => ⟨rfl, rfl⟩, fun _ => ⟨rfl, rfl⟩⟩

/-- Witness for C6: candidate B of position 1 got no vote and is reported
with count 0 and percentage 0. -/
theorem results_include_zero_vote_candidates_witness :
    ∃ r ∈ (get_results_for_position envW { id := 1, election := 1 } [voteW]).candidates,
      r.candidate_id = 2 ∧
      (([voteW] : List Vote).countP (fun v => decide (v.position = 1 ∧ v.candidate = 2)) = 0 →
        r.vote_count = 0 ∧ r.percentage = 0) ∧
      ((get_results_for_position envW { id := 1, election := 1 } [voteW]).total_votes = 0 →
        r.vote_count = 0 ∧ r.percentage = 0) :=
  results_include_zero_vote_candidates envW { id := 1, election := 1 } [voteW]
    { id := 2, position := 1, name := "B" } (by decide) (by decide)

end Pollr
